import Mathlib

/-!
Verification of `main.cpp` (cpp17_learn): a single-file demonstration of
C++17 features.  Each routine below is a shallow embedding of the
corresponding C++ function; machine `int`s are modelled as `Int`
(no arithmetic here approaches the overflow range), `std::vector<int>` as
`List Int`, and undefined behaviour (modulo by zero, `max_element` on an
empty range) as `Option` failure.
-/

/-- Embedding of the C++17 fold expression `return (values + ...);` in
`sum_numbers` (main.cpp lines 115-118).  A unary right fold over a
non-empty pack `v, vs...` expands to `v₁ + (v₂ + (... + vₙ))`; an empty
pack is ill-formed, so the embedding takes the first argument separately. -/
def sum_numbers : Int → List Int → Int
  | v, [] => v
  | v, w :: ws => v + sum_numbers w ws

/-- Embedding of the `constexpr` lambda `[](auto someVal) { return someVal * 5; }`
from `generate_constexpr_lambda` (main.cpp line 64). -/
def multiplyByFive (someVal : Int) : Int := someVal * 5

/-- Embedding of `generate_constexpr_lambda` (main.cpp lines 62-75): the body
runs `transform(begin(vec), end(vec), begin(vec), multiplyByFive)`, replacing
every element in place; the printing side effects carry no data.  The
post-state of the vector is returned. -/
def generate_constexpr_lambda (vec : List Int) : List Int :=
  vec.map multiplyByFive

/-- Embedding of `struct someObj { int memA; char memB; };`
(main.cpp lines 139-142). -/
structure someObj where
  memA : Int
  memB : Char
  deriving DecidableEq, Repr

/-- Embedding of `someObj createObj() { return someObj{ 5,'C' }; }`
(main.cpp lines 144-146). -/
def createObj : someObj := { memA := 5, memB := 'C' }

/-- Embedding of `bindings_example_2` (main.cpp lines 149-153): the structured
binding `const auto [first, second] = createObj();` yields the pair of member
values that the function prints. -/
def bindings_example_2 : Int × Char :=
  ((createObj).memA, (createObj).memB)

/-- Embedding of `if_init` (main.cpp lines 160-168): the if-with-initializer
`if (auto const [first, second] = createObj(); first != 6)` selects which of
the two fixed messages is printed. -/
def if_init : String :=
  if (createObj).memA ≠ 6 then "Value was not 6" else "Value was 6"

/-- Embedding of `A::foo` (main.cpp lines 202-204). -/
def A.foo : String := "I am an A foo!"

/-- Embedding of `A::B::foo` (main.cpp lines 197-199). -/
def A.B.foo : String := "I am a B foo!"

/-- Embedding of `printFoos` (main.cpp lines 207-210): the two lines written
to standard output, in order of the calls `A::foo()` then `A::B::foo()`. -/
def printFoos : List String := [A.foo, A.B.foo]

/-- Core loop of `std::max_element` as used in `compare_values`
(main.cpp lines 50-51): scan the remaining elements, keeping the current
best value and its index; a later element replaces the best only when it is
strictly greater (`*largest < *first` in the standard's specification), so
ties resolve to the first occurrence. -/
def maxElementAux : Int → Nat → Nat → List Int → Int × Nat
  | best, bestIdx, _, [] => (best, bestIdx)
  | best, bestIdx, i, x :: xs =>
      if best < x then maxElementAux x i (i + 1) xs
      else maxElementAux best bestIdx (i + 1) xs

/-- Embedding of `std::max_element` over a whole vector, paired with
`std::distance(begin, it)`: the maximum value and its zero-based position.
On an empty range the iterator equals `end` and dereferencing it is
undefined behaviour, modelled as `none`. -/
def max_element : List Int → Option (Int × Nat)
  | [] => none
  | x :: xs => some (maxElementAux x 0 1 xs)

/-- Embedding of `compare_values` (main.cpp lines 48-55): it computes
`max_element` of each vector and prints each maximum with its distance from
`begin`.  The result is the pair of reports together with the post-state of
the two vectors, which the body only reads (both `max_element` and
`distance` are observers). -/
def compare_values (vecA vecB : List Int) :
    Option (((Int × Nat) × (Int × Nat)) × (List Int × List Int)) :=
  match max_element vecA, max_element vecB with
  | some ra, some rb => some ((ra, rb), (vecA, vecB))
  | _, _ => none

/-- Single generated element of `generate_vector` (main.cpp line 21):
`rand() % rangeVal`.  C++ `%` on `int` truncates toward zero (`Int.tmod`),
and `rand()` returns a non-negative value; `rangeVal == 0` is division by
zero, undefined behaviour, modelled as `none`. -/
def genElem (rangeVal : Nat) (r : Int) : Option Int :=
  if rangeVal = 0 then none else some (r.tmod rangeVal)

/-- Loop of `std::generate` in `generate_vector`: fill positions
`i, i+1, ...` for `n` remaining slots, consuming one value of the `rand`
stream per slot. -/
def genFrom (rand : Nat → Int) (rangeVal : Nat) : Nat → Nat → Option (List Int)
  | _, 0 => some []
  | i, n + 1 =>
      match genElem rangeVal (rand i), genFrom rand rangeVal (i + 1) n with
      | some x, some rest => some (x :: rest)
      | _, _ => none

/-- Embedding of `generate_vector` (main.cpp lines 19-23): build a vector of
`sizeVal` slots and fill each with `rand() % rangeVal`.  The `rand` stream
(the successive return values of the C library `rand()`) is a parameter;
each call site consumes fresh stream values. -/
def generate_vector (sizeVal rangeVal : Nat) (rand : Nat → Int) :
    Option (List Int) :=
  genFrom rand rangeVal 0 sizeVal

/-- Helper for C1: shifting the accumulator of a left fold of `+`. -/
theorem foldl_add_shift (l : List Int) :
    ∀ a b : Int, l.foldl (· + ·) (a + b) = a + l.foldl (· + ·) b := by
  induction l with
  | nil => intro a b; rfl
  | cons x xs ih =>
      intro a b
      simp only [List.foldl_cons]
      rw [add_assoc, ih]

/-- C1: for every fixed-arity list of integer arguments, `sum_numbers`
returns their left-to-right sum (the left fold of `+` from 0); in particular
`sum_numbers(4, 6, 33, 7, 3, 4, 5) == 62`. -/
theorem sum_numbers_is_left_to_right_sum :
    (∀ (v : Int) (vs : List Int),
      sum_numbers v vs = (v :: vs).foldl (· + ·) 0) ∧
    sum_numbers 4 [6, 33, 7, 3, 4, 5] = 62 := by
  constructor
  · intro v vs
    induction vs generalizing v with
    | nil => simp [sum_numbers]
    | cons w ws ih =>
        simp only [sum_numbers, ih w, List.foldl_cons, zero_add]
        exact (foldl_add_shift ws v w).symm
  · rfl

/-- C6: the in-place transform multiplies every element by 5 and preserves
the length; on `[1, 2, 3]` it produces `[5, 10, 15]`. -/
theorem generate_constexpr_lambda_multiplies_by_five :
    (∀ vec : List Int,
      generate_constexpr_lambda vec = vec.map (fun x => 5 * x) ∧
      (generate_constexpr_lambda vec).length = vec.length) ∧
    generate_constexpr_lambda [1, 2, 3] = [5, 10, 15] := by
  refine ⟨fun vec => ⟨?_, ?_⟩, ?_⟩
  · simp [generate_constexpr_lambda, multiplyByFive, mul_comm]
  · simp [generate_constexpr_lambda]
  · rfl

/-- C7: applying the ×5 in-place transform twice equals one ×25 map; on
`[1, 2, 3]` two applications produce `[25, 50, 75]`. -/
theorem generate_constexpr_lambda_twice_is_times_25 :
    (∀ vec : List Int,
      generate_constexpr_lambda (generate_constexpr_lambda vec) =
        vec.map (fun x => x * 25)) ∧
    generate_constexpr_lambda (generate_constexpr_lambda [1, 2, 3]) =
      [25, 50, 75] := by
  refine ⟨fun vec => ?_, rfl⟩
  simp [generate_constexpr_lambda, multiplyByFive, mul_assoc]

/-- C8: destructuring the factory's fixed struct yields `first = 5` and
`second = 'C'`, and `if_init` always prints "Value was not 6", never
"Value was 6". -/
theorem bindings_and_if_init_fixed_values :
    bindings_example_2 = (5, 'C') ∧
    createObj.memA = 5 ∧ createObj.memB = 'C' ∧
    if_init = "Value was not 6" ∧ if_init ≠ "Value was 6" := by
  refine ⟨rfl, rfl, rfl, rfl, ?_⟩
  decide

/-- Specification predicate: `(v, k)` is the maximum of `l` together with the
zero-based position of its first occurrence: `k` is in range, `l` holds `v`
at `k`, no element exceeds `v`, and every element before `k` is strictly
smaller. -/
def isFirstMax (l : List Int) (v : Int) (k : Nat) : Prop :=
  k < l.length ∧ l.getD k 0 = v ∧ (∀ y ∈ l, y ≤ v) ∧
    ∀ m, m < k → l.getD m 0 < v

instance (l : List Int) (v : Int) (k : Nat) : Decidable (isFirstMax l v k) := by
  unfold isFirstMax; infer_instance

/-- Invariant of the `max_element` scanning loop: starting from candidate
`best` at recorded position `bestIdx` with the next element at position `i`,
either no remaining element beats `best` and the candidate is returned
unchanged, or the result is the first strict improvement over `best` within
the remaining elements, at its offset `j` from `i`. -/
theorem maxElementAux_spec (xs : List Int) :
    ∀ (best : Int) (bestIdx i : Nat),
      (maxElementAux best bestIdx i xs = (best, bestIdx) ∧
        ∀ y ∈ xs, y ≤ best) ∨
      (∃ j, j < xs.length ∧
        (maxElementAux best bestIdx i xs).2 = i + j ∧
        (maxElementAux best bestIdx i xs).1 = xs.getD j 0 ∧
        best < (maxElementAux best bestIdx i xs).1 ∧
        (∀ m, m < j → xs.getD m 0 < (maxElementAux best bestIdx i xs).1) ∧
        ∀ y ∈ xs, y ≤ (maxElementAux best bestIdx i xs).1) := by
  induction xs with
  | nil =>
      intro best bestIdx i
      exact Or.inl ⟨rfl, by simp⟩
  | cons x xs ih =>
      intro best bestIdx i
      by_cases h : best < x
      · have hrw : maxElementAux best bestIdx i (x :: xs) =
            maxElementAux x i (i + 1) xs := by
          simp [maxElementAux, h]
        rw [hrw]
        rcases ih x i (i + 1) with ⟨heq, hle⟩ |
          ⟨j, hjlen, h2, h1, hbx, hfirst, hall⟩
        · refine Or.inr ⟨0, ?_, ?_, ?_, ?_, ?_, ?_⟩
          · simp
          · rw [heq]; simp
          · rw [heq]; simp
          · rw [heq]; exact h
          · intro m hm; omega
          · intro y hy
            rw [heq]
            rcases List.mem_cons.mp hy with rfl | hy'
            · exact le_refl _
            · exact hle y hy'
        · refine Or.inr ⟨j + 1, ?_, ?_, ?_, ?_, ?_, ?_⟩
          · simp only [List.length_cons]; omega
          · rw [h2]; omega
          · rw [h1]; simp
          · exact lt_trans h hbx
          · intro m hm
            match m with
            | 0 => simpa using hbx
            | m' + 1 => simpa using hfirst m' (by omega)
          · intro y hy
            rcases List.mem_cons.mp hy with rfl | hy'
            · exact le_of_lt hbx
            · exact hall y hy'
      · have hxb : x ≤ best := not_lt.mp h
        have hrw : maxElementAux best bestIdx i (x :: xs) =
            maxElementAux best bestIdx (i + 1) xs := by
          simp [maxElementAux, h]
        rw [hrw]
        rcases ih best bestIdx (i + 1) with ⟨heq, hle⟩ |
          ⟨j, hjlen, h2, h1, hbx, hfirst, hall⟩
        · refine Or.inl ⟨heq, ?_⟩
          intro y hy
          rcases List.mem_cons.mp hy with rfl | hy'
          · exact hxb
          · exact hle y hy'
        · refine Or.inr ⟨j + 1, ?_, ?_, ?_, ?_, ?_, ?_⟩
          · simp only [List.length_cons]; omega
          · rw [h2]; omega
          · rw [h1]; simp
          · exact hbx
          · intro m hm
            match m with
            | 0 => simpa using lt_of_le_of_lt hxb hbx
            | m' + 1 => simpa using hfirst m' (by omega)
          · intro y hy
            rcases List.mem_cons.mp hy with rfl | hy'
            · exact le_of_lt (lt_of_le_of_lt hxb hbx)
            · exact hall y hy'

/-- Correctness of the embedded `max_element` on any non-empty vector: it
reports the maximum value and the position of its first occurrence. -/
theorem max_element_isFirstMax (l : List Int) (h : l ≠ []) :
    ∃ v k, max_element l = some (v, k) ∧ isFirstMax l v k := by
  match l with
  | [] => exact absurd rfl h
  | x :: xs =>
      refine ⟨(maxElementAux x 0 1 xs).1, (maxElementAux x 0 1 xs).2, rfl, ?_⟩
      rcases maxElementAux_spec xs x 0 1 with ⟨heq, hle⟩ |
        ⟨j, hjlen, h2, h1, hbx, hfirst, hall⟩
      · rw [heq]
        refine ⟨by simp, by simp, ?_, by intro m hm; omega⟩
        intro y hy
        rcases List.mem_cons.mp hy with rfl | hy'
        · exact le_refl y
        · exact hle y hy'
      · refine ⟨?_, ?_, ?_, ?_⟩
        · simp only [h2, List.length_cons]; omega
        · rw [h2, h1, show 1 + j = j + 1 from by omega]; simp
        · intro y hy
          rcases List.mem_cons.mp hy with rfl | hy'
          · exact le_of_lt hbx
          · exact hall y hy'
        · intro m hm
          rw [h2] at hm
          match m with
          | 0 => simpa using hbx
          | m' + 1 =>
              have : m' < j := by omega
              simpa using hfirst m' this

/-- C3: on every pair of non-empty vectors, `compare_values` reports, for
each vector, its maximum value and the zero-based position of its first
occurrence; on the literal sequence `[3, 7, 2, 7, 1]` it reports maximum 7
at position 1. -/
theorem compare_values_reports_first_max (vecA vecB : List Int)
    (hA : vecA ≠ []) (hB : vecB ≠ []) :
    (∃ vA kA vB kB,
      compare_values vecA vecB = some (((vA, kA), (vB, kB)), (vecA, vecB)) ∧
      isFirstMax vecA vA kA ∧ isFirstMax vecB vB kB) ∧
    max_element [3, 7, 2, 7, 1] = some (7, 1) := by
  obtain ⟨vA, kA, hmA, hfA⟩ := max_element_isFirstMax vecA hA
  obtain ⟨vB, kB, hmB, hfB⟩ := max_element_isFirstMax vecB hB
  refine ⟨⟨vA, kA, vB, kB, ?_, hfA, hfB⟩, rfl⟩
  simp [compare_values, hmA, hmB]

/-- Witness for C3 at the literal input from the program. -/
theorem compare_values_reports_first_max_witness :
    ([3, 7, 2, 7, 1] : List Int) ≠ [] ∧ ([2, 5] : List Int) ≠ [] ∧
    ((∃ vA kA vB kB,
      compare_values [3, 7, 2, 7, 1] [2, 5] =
        some (((vA, kA), (vB, kB)), ([3, 7, 2, 7, 1], [2, 5])) ∧
      isFirstMax [3, 7, 2, 7, 1] vA kA ∧ isFirstMax [2, 5] vB kB) ∧
    max_element [3, 7, 2, 7, 1] = some (7, 1)) :=
  ⟨by decide, by decide,
    compare_values_reports_first_max [3, 7, 2, 7, 1] [2, 5]
      (by decide) (by decide)⟩

/-- C10: on every pair of non-empty vectors, `compare_values` returns the
two vectors unchanged alongside its reports, even though it receives them by
mutable reference: its body only reads them. -/
theorem compare_values_frame (vecA vecB : List Int)
    (hA : vecA ≠ []) (hB : vecB ≠ []) :
    ∃ reports, compare_values vecA vecB = some (reports, (vecA, vecB)) := by
  obtain ⟨vA, kA, hmA, -⟩ := max_element_isFirstMax vecA hA
  obtain ⟨vB, kB, hmB, -⟩ := max_element_isFirstMax vecB hB
  exact ⟨((vA, kA), (vB, kB)), by simp [compare_values, hmA, hmB]⟩

/-- Witness for C10 at a concrete pair of vectors. -/
theorem compare_values_frame_witness :
    ([10, 4] : List Int) ≠ [] ∧ ([1, 9, 9] : List Int) ≠ [] ∧
    ∃ reports,
      compare_values [10, 4] [1, 9, 9] = some (reports, ([10, 4], [1, 9, 9])) :=
  ⟨by decide, by decide,
    compare_values_frame [10, 4] [1, 9, 9] (by decide) (by decide)⟩

/-- Filling `n` slots succeeds when the bound is positive, produces exactly
`n` elements, and every element lies in `[0, rangeVal)`. -/
theorem genFrom_spec (rand : Nat → Int) (rangeVal : Nat) (hr : 0 < rangeVal)
    (hrand : ∀ i, 0 ≤ rand i) :
    ∀ n i, ∃ l, genFrom rand rangeVal i n = some l ∧ l.length = n ∧
      ∀ x ∈ l, 0 ≤ x ∧ x < (rangeVal : Int) := by
  intro n
  induction n with
  | zero => intro i; exact ⟨[], rfl, rfl, by simp⟩
  | succ n ih =>
      intro i
      obtain ⟨rest, hrest, hlen, hbounds⟩ := ih (i + 1)
      have hne : rangeVal ≠ 0 := Nat.pos_iff_ne_zero.mp hr
      have helem : genElem rangeVal (rand i) =
          some ((rand i).tmod rangeVal) := by
        simp [genElem, hne]
      refine ⟨(rand i).tmod rangeVal :: rest, ?_, by simp [hlen], ?_⟩
      · simp [genFrom, helem, hrest]
      · intro x hx
        rcases List.mem_cons.mp hx with rfl | hx'
        · refine ⟨Int.tmod_nonneg _ (hrand i), ?_⟩
          exact Int.tmod_lt_of_pos (rand i) (by exact_mod_cast hr)
        · exact hbounds x hx'

/-- C4: for every size, every positive bound and every (non-negative) rand
stream, `generate_vector` returns exactly `sizeVal` elements, each a
non-negative integer strictly less than `rangeVal`. -/
theorem generate_vector_length_and_range (sizeVal rangeVal : Nat)
    (rand : Nat → Int) (hr : 0 < rangeVal) (hrand : ∀ i, 0 ≤ rand i) :
    ∃ l, generate_vector sizeVal rangeVal rand = some l ∧
      l.length = sizeVal ∧ ∀ x ∈ l, 0 ≤ x ∧ x < (rangeVal : Int) :=
  genFrom_spec rand rangeVal hr hrand sizeVal 0

/-- Witness for C4: the program's call shape `generate_vector(10, 100)` with
a concrete rand stream. -/
theorem generate_vector_length_and_range_witness :
    0 < 100 ∧ (∀ i : Nat, 0 ≤ (fun k : Nat => (k : Int) * 37 + 41) i) ∧
    ∃ l, generate_vector 10 100 (fun k : Nat => (k : Int) * 37 + 41) = some l ∧
      l.length = 10 ∧ ∀ x ∈ l, 0 ≤ x ∧ x < (100 : Int) :=
  ⟨by decide, fun i => by positivity,
    generate_vector_length_and_range 10 100 _ (by decide)
      (fun i => by positivity)⟩

/-- Failure of the slot-filling loop happens exactly on a zero bound with at
least one slot to fill. -/
theorem genFrom_none_iff (rand : Nat → Int) (rangeVal : Nat) :
    ∀ n i, genFrom rand rangeVal i n = none ↔ (rangeVal = 0 ∧ 0 < n) := by
  intro n
  induction n with
  | zero => intro i; simp [genFrom]
  | succ n ih =>
      intro i
      by_cases hz : rangeVal = 0
      · simp [genFrom, genElem, hz]
      · have helem : genElem rangeVal (rand i) =
            some ((rand i).tmod rangeVal) := by
          simp [genElem, hz]
        rcases hrec : genFrom rand rangeVal (i + 1) n with - | rest
        · exact absurd ((ih (i + 1)).mp hrec) (by simp [hz])
        · simp [genFrom, helem, hrec, hz]

/-- C5: `generate_vector` hits the modulo-by-zero failure exactly when the
bound is zero and at least one element is generated; for every positive
bound the modulo is well-defined and the generator never fails. -/
theorem generate_vector_none_iff_zero_bound (sizeVal rangeVal : Nat)
    (rand : Nat → Int) :
    (generate_vector sizeVal rangeVal rand = none ↔
      (rangeVal = 0 ∧ 0 < sizeVal)) ∧
    (0 < rangeVal → (generate_vector sizeVal rangeVal rand).isSome) := by
  constructor
  · exact genFrom_none_iff rand rangeVal sizeVal 0
  · intro hr
    cases hres : generate_vector sizeVal rangeVal rand with
    | none =>
        have := (genFrom_none_iff rand rangeVal sizeVal 0).mp hres
        omega
    | some l' => rfl

/-- Witness for C5 at the zero bound and at a positive bound. -/
theorem generate_vector_none_iff_zero_bound_witness :
    ((generate_vector 3 0 (fun _ => (7 : Int)) = none ↔ (0 = 0 ∧ 0 < 3)) ∧
      (0 < 0 → (generate_vector 3 0 (fun _ => (7 : Int))).isSome)) :=
  generate_vector_none_iff_zero_bound 3 0 (fun _ => (7 : Int))

/-- C9: the qualified call in scope `A` returns "I am an A foo!" and the one
in nested scope `A::B` returns "I am a B foo!"; both are constant functions,
so the two results are the same whichever call is made first, and `printFoos`
prints exactly those two lines. -/
theorem namespaced_foo_resolution :
    A.foo = "I am an A foo!" ∧ A.B.foo = "I am a B foo!" ∧
    printFoos = ["I am an A foo!", "I am a B foo!"] ∧
    [A.B.foo, A.foo] = ["I am a B foo!", "I am an A foo!"] := by
  exact ⟨rfl, rfl, rfl, rfl⟩
